import Mathlib

/-!
ada_ui — shallow embedding and verification

Verification development for the `ada_ui` dialog-presentation layer.
Strings are modelled as `List Char`; Python exceptions as `Except PyErr`;
the WinForms / WPF dialog loops as explicit user-action data. Every
definition is translated from the corresponding Python source function,
keeping its name where Lean allows it.
-/

namespace AdaUI

/-- A Python exception (opaque: we only care that one was raised). -/
inductive PyErr : Type
| err : PyErr
deriving DecidableEq, Repr

/-- Python `try: a except: b` exception handling over `Except`. -/
def pyTry {α : Type} (a : Except PyErr α) (b : Except PyErr α) : Except PyErr α :=
  match a with
  | .ok v => .ok v
  | .error _ => b

/-! ## Python string primitives (on `List Char`) -/

/-- Whitespace characters recognised by Python `str.strip()` / `str.split()`
(ASCII subset). -/
def pyIsSpace (c : Char) : Bool :=
  c = ' ' || c = '\t' || c = '\n' || c = '\r' || c = '\x0b' || c = '\x0c'

/-- Python `str.strip()`: drop leading and trailing whitespace. -/
def pyStrip (s : List Char) : List Char :=
  ((s.dropWhile pyIsSpace).reverse.dropWhile pyIsSpace).reverse

/-- Right-strip: drop trailing whitespace (the second phase of
`pyStrip`, named for reasoning). -/
def pyRStrip (v : List Char) : List Char :=
  (v.reverse.dropWhile pyIsSpace).reverse

/-- Python `str.lower()` (ASCII case mapping; non-cased characters unchanged). -/
def pyLower (s : List Char) : List Char :=
  s.map Char.toLower

/-- Python `txt.replace(",", ".")`. -/
def replaceCommaDot (s : List Char) : List Char :=
  s.map (fun c => if c = ',' then '.' else c)

/-- Single pass of Python `str.split()`: `acc` holds the reversed
characters of the token currently being read. -/
def pySplitAux : List Char → List Char → List (List Char)
  | [], [] => []
  | [], acc => [acc.reverse]
  | c :: cs, acc =>
    if pyIsSpace c then
      match acc with
      | [] => pySplitAux cs []
      | _ => acc.reverse :: pySplitAux cs []
    else pySplitAux cs (c :: acc)

/-- Python `str.split()` (no argument): split on runs of whitespace,
discarding empty fields. -/
def pySplit (s : List Char) : List (List Char) :=
  pySplitAux s []

/-- The first whitespace-delimited token of a string (empty when the string
is all whitespace). -/
def firstTok (s : List Char) : List Char :=
  (s.dropWhile pyIsSpace).takeWhile (fun d => !pyIsSpace d)

/-! ## Python numeric literal parsing (`float(...)` on a token)

Model of CPython `float()` applied to a finite decimal literal:
optional sign, digits with an optional decimal point, optional decimal
exponent. Special forms (`inf`, `nan`, underscore digit separators,
surrounding whitespace) are not represented; the bulk-editor tokens never
contain them. Values are exact rationals. -/

/-- Digits `0`-`9` to their value. -/
def digitVal (c : Char) : Option Nat :=
  if c.isDigit then some (c.toNat - '0'.toNat) else none

/-- Read a digit string as a natural number (`none` if empty or non-digit). -/
def readDigits (s : List Char) : Option Nat :=
  match s with
  | [] => none
  | _ =>
    s.foldl (fun acc c =>
      match acc, digitVal c with
      | some n, some d => some (n * 10 + d)
      | _, _ => none) (some 0)

/-- Read a possibly-empty digit string (`none` on a non-digit; empty ↦ 0,
also reporting its length for the fractional scale). -/
def readFrac (s : List Char) : Option (Nat × Nat) :=
  match s with
  | [] => some (0, 0)
  | _ => (readDigits s).map (fun n => (n, s.length))

/-- Split a list at the first occurrence of a separator satisfying `p`. -/
def splitFirst (p : Char → Bool) (s : List Char) : List Char × Option (List Char) :=
  match s with
  | [] => ([], none)
  | c :: cs =>
    if p c then ([], some cs)
    else
      let (pre, post) := splitFirst p cs
      (c :: pre, post)

/-- Parse the mantissa part `digits[.digits]` of a float literal. -/
def parseMantissa (s : List Char) : Option ℚ :=
  let (ip, fp) := splitFirst (fun c => c = '.') s
  match fp with
  | none => (readDigits ip).map (fun n => (n : ℚ))
  | some f =>
    if ip = [] ∧ f = [] then none
    else
      match (if ip = [] then some 0 else readDigits ip), readFrac f with
      | some n, some (m, k) => some ((n : ℚ) + (m : ℚ) / (10 : ℚ) ^ k)
      | _, _ => none

/-- Parse an optional-sign prefix; returns the sign and the rest. -/
def parseSign (s : List Char) : ℚ × List Char :=
  match s with
  | '+' :: cs => (1, cs)
  | '-' :: cs => (-1, cs)
  | _ => (1, s)

/-- Parse a decimal exponent `[+-]digits`. -/
def parseExp (s : List Char) : Option ℤ :=
  match s with
  | '+' :: cs => (readDigits cs).map (fun n => (n : ℤ))
  | '-' :: cs => (readDigits cs).map (fun n => -(n : ℤ))
  | _ => (readDigits s).map (fun n => (n : ℤ))

/-- Model of Python `float(token)` on finite decimal literals. -/
def pyFloat (s : List Char) : Option ℚ :=
  let (sign, rest) := parseSign s
  let (mant, ex) := splitFirst (fun c => c = 'e' || c = 'E') rest
  match ex with
  | none => (parseMantissa mant).map (sign * ·)
  | some e =>
    match parseMantissa mant, parseExp e with
    | some m, some z => some (sign * m * (10 : ℚ) ^ z)
    | _, _ => none

/-! ## Bulk-editor value parsing (`_parse_value`)

`src/ada_brand_bulk_editor_ui.py` and `src/ada_brand_bulk_editor_shim.py`
both define `_parse_value`; the UI variant signals "keep" with `None`,
the shim variant with its `keep_token` argument (passed as `None` at its
only call site). Both are modelled with `.keep`. -/

/-- Declared parameter type of a bulk-editor row. -/
inductive PType : Type
| bool | float | string
deriving DecidableEq, Repr

/-- A parsed parameter value. -/
inductive TVal : Type
| b : Bool → TVal
| f : ℚ → TVal
| s : List Char → TVal
deriving DecidableEq, Repr

/-- Result of `_parse_value`: either a value or the "keep" sentinel. -/
inductive ParseOut : Type
| keep : ParseOut
| val : TVal → ParseOut
deriving DecidableEq, Repr

/-- Truthy token list of `ada_brand_bulk_editor_ui._parse_value`. -/
def uiTrueTokens : List (List Char) :=
  ["yes".toList, "true".toList, "1".toList, "y".toList, "t".toList,
   "✓".toList, "tick".toList, "check".toList]

/-- Falsy token list of `ada_brand_bulk_editor_ui._parse_value`. -/
def uiFalseTokens : List (List Char) :=
  ["no".toList, "false".toList, "0".toList, "n".toList, "f".toList,
   "✗".toList, "x".toList, "cross".toList]

/-- Model of `ada_brand_bulk_editor_ui._parse_value(ptype, unit, raw)`;
`raw = none` models a `None` argument, `.keep` models a `None` return. -/
def parse_value (ptype : PType) (raw : Option (List Char)) : ParseOut :=
  match raw with
  | none => .keep
  | some r =>
    let txt := pyStrip r
    if txt = [] then .keep
    else
      match ptype with
      | .bool =>
        let tl := pyLower txt
        if tl ∈ uiTrueTokens then .val (.b true)
        else if tl ∈ uiFalseTokens then .val (.b false)
        else .keep
      | .float =>
        match pySplit (replaceCommaDot txt) with
        | [] => .keep
        | t :: _ =>
          match pyFloat t with
          | some q => .val (.f q)
          | none => .keep
      | .string => .val (.s txt)

/-- Truthy token list of `ada_brand_bulk_editor_shim._parse_value`. -/
def shimTrueTokens : List (List Char) :=
  ["yes".toList, "true".toList, "1".toList, "y".toList, "t".toList,
   "✓".toList, "check".toList, "tick".toList]

/-- Falsy token list of `ada_brand_bulk_editor_shim._parse_value`. -/
def shimFalseTokens : List (List Char) :=
  ["no".toList, "false".toList, "0".toList, "n".toList, "f".toList,
   "✗".toList, "cross".toList, "x".toList]

/-- Model of `ada_brand_bulk_editor_shim._parse_value(ptype, unit, raw, keep_token)`,
with `keep_token` modelled by `.keep` (it is passed `None` at the only
call site). -/
def parse_value_shim (ptype : PType) (raw : Option (List Char)) : ParseOut :=
  match raw with
  | none => .keep
  | some r =>
    let txt := pyStrip r
    if txt = [] then .keep
    else
      match ptype with
      | .bool =>
        let tl := pyLower txt
        if tl ∈ shimTrueTokens then .val (.b true)
        else if tl ∈ shimFalseTokens then .val (.b false)
        else .keep
      | .float =>
        match pySplit (replaceCommaDot txt) with
        | [] => .keep
        | t :: _ =>
          match pyFloat t with
          | some q => .val (.f q)
          | none => .keep
      | .string => .val (.s txt)

/-! ## Theme compositor (`forms.py`: `_ensure_theme_tokens`, `_merge_theme`)

A WPF `ResourceDictionary` is modelled as its own key/value entries plus a
list of merged dictionaries; `rd[key]` searches own entries first, then
the merged dictionaries (most recently added first). -/

/-- One input record of `editable_params`. -/
structure EditableParam : Type where
  name : String
  ptype : PType
  value : Option TVal
  unit : List Char
deriving DecidableEq, Repr

/-- WinForms `CheckState` of a tri-state checkbox. -/
inductive CheckState : Type
| checked | unchecked | indeterminate
deriving DecidableEq, Repr

/-- The user's final interaction with one editor row. `.check` only
affects a checkbox row, `.typed` only a text row; the other editor kind
stays in its initial state (`Indeterminate` / empty text). -/
inductive EditState : Type
| check : CheckState → EditState
| typed : List Char → EditState
deriving DecidableEq, Repr

/-- One entry of the `editors` list: a tri-state checkbox for `bool`
parameters, a text box for all others. -/
inductive EditorRow : Type
| boolRow (name : String) (st : CheckState)
| textRow (name : String) (ptype : PType) (content : List Char)
deriving DecidableEq, Repr

/-- The parameter name carried by an editor row. -/
def rowName : EditorRow → String
  | .boolRow n _ => n
  | .textRow n _ _ => n

/-- Build the editor row for one parameter, in the state the user left it:
`bool` parameters get a `ThreeState` checkbox starting `Indeterminate`,
all others a text box starting empty. -/
def mkRow (p : EditableParam) (e : EditState) : EditorRow :=
  if p.ptype = .bool then
    .boolRow p.name (match e with | .check st => st | _ => .indeterminate)
  else
    .textRow p.name p.ptype (match e with | .typed t => t | _ => [])

/-- Python `dict` assignment `d[k] = v`: overwrite in place, append if new. -/
def dictInsert (d : List (String × TVal)) (k : String) (v : TVal) :
    List (String × TVal) :=
  if d.any (fun p => p.1 = k) then
    d.map (fun p => if p.1 = k then (k, v) else p)
  else d ++ [(k, v)]

/-- The contribution of one editor row to `changes`: `none` when the row
is skipped (`continue`), `some (name, value)` when it is recorded. -/
def rowChange (r : EditorRow) : Option (String × TVal) :=
  match r with
  | .boolRow n st =>
    if st = .indeterminate then none
    else some (n, .b (st = .checked))
  | .textRow n pt content =>
    let raw := pyStrip content
    if raw = [] then none
    else
      match parse_value pt (some raw) with
      | .keep => none
      | .val v => some (n, v)

/-- The change-collection loop after `ShowDialog` returns OK. -/
def collectChanges (rows : List EditorRow) : List (String × TVal) :=
  rows.foldl (fun changes r =>
    match rowChange r with
    | none => changes
    | some (k, v) => dictInsert changes k v) []

/-- Model of `ada_brand_bulk_editor_ui.bulk_edit`: `none` for an empty parameter
list or a non-OK dialog result, otherwise the collected ChangeSet. -/
def bulk_edit (params : List EditableParam) (edits : List EditState)
    (dlgOK : Bool) : Option (List (String × TVal)) :=
  if params = [] then none
  else if ¬ dlgOK then none
  else some (collectChanges (List.zipWith mkRow params edits))

/-! ## Backend fallback chains (`ada_core_bigbuttons.alert`,
`ada_brand_bulk_editor_shim._load_forms`)

Each tier's import-and-use attempt is an `Except PyErr` outcome supplied
as input; the chain structure of nested `try/except` is `pyTry`. -/

/-- The tiers of `ada_core_bigbuttons.alert`, in priority order. -/
inductive AlertTier : Type
| ui6 | pyrevit | taskdialog | console
deriving DecidableEq, Repr

/-- Model of `ada_core_bigbuttons.alert`: try `ada_brandforms_v6.alert`, then
`pyrevit.forms.alert`, then a Revit `TaskDialog`, then `print`. The
result reports which tier handled the message. -/
def alert_bigbuttons (t1 t2 t3 : Except PyErr Unit) : Except PyErr AlertTier :=
  pyTry (t1.map fun _ => AlertTier.ui6)
    (pyTry (t2.map fun _ => AlertTier.pyrevit)
      (pyTry (t3.map fun _ => AlertTier.taskdialog)
        (.ok AlertTier.console)))

/-- The tiers of `ada_brand_bulk_editor_shim._load_forms`. -/
inductive FormsTier : Type
| v6 | bootstrap | pyrevit | fallback
deriving DecidableEq, Repr

/-- Model of `ada_brand_bulk_editor_shim._load_forms`: try importing
`ada_brandforms_v6.forms`, `ada_bootstrap.forms`, `pyrevit.forms`, then a
built-in `_Fallback` object; afterwards `install_ui_shims` is attempted
and its failure swallowed. -/
def load_forms (i1 i2 i3 : Except PyErr Unit)
    (shim : FormsTier → Except PyErr Unit) : Except PyErr FormsTier :=
  let forms :=
    pyTry (i1.map fun _ => FormsTier.v6)
      (pyTry (i2.map fun _ => FormsTier.bootstrap)
        (pyTry (i3.map fun _ => FormsTier.pyrevit)
          (.ok FormsTier.fallback)))
  forms.bind (fun f => pyTry ((shim f).map fun _ => f) (.ok f))

/-- Whether an `Except` outcome succeeded. -/
def pyOk {α : Type} : Except PyErr α → Bool
  | .ok _ => true
  | .error _ => false

/-! ## Silent alert shim (`gp_ui_shims._patch_alert_compat`) -/

/-- The module flag `gp_ui_shims.SILENT_ALERTS` (the shipped default). -/
def SILENT_ALERTS : Bool := true

/-- The four decision layouts `_show_branded_confirm` accepts. -/
inductive BrandedMode : Type
| yesnocancel | yesno | okcancel | okOnly
deriving DecidableEq, Repr

/-- What `_alert_compat` produced: the Python return value
(`none` = Python `None`) and whether any dialog was presented. -/
structure AlertOut : Type where
  ret : Option Bool
  uiShown : Bool
deriving DecidableEq, Repr

/-- Model of `gp_ui_shims._alert_compat` — the replacement installed over
`forms.alert`. `branded` models `_show_branded_confirm` (its return value
or a raised exception). -/
def alert_compat (silent : Bool) (yes no ok cancel : Bool)
    (branded : BrandedMode → Except PyErr (Option Bool)) : AlertOut :=
  let decision := yes || no || ok || cancel
  if silent then { ret := some true, uiShown := false }
  else
    let res : Except PyErr (Option Bool) :=
      if decision then
        if yes && no && cancel then branded .yesnocancel
        else if yes && no then branded .yesno
        else if ok && cancel then branded .okcancel
        else branded .okOnly
      else (branded .okOnly).map (fun _ => some true)
    match res with
    | .ok v => { ret := v, uiShown := true }
    | .error _ => { ret := some true, uiShown := true }

/-! ## Part resolver (`forms._find`) -/

/-- A WPF logical tree: each node has an optional `Name` and children. -/
inductive VTree : Type
| node (nm : Option String) (children : List VTree)

/-- The node's `Name` attribute. -/
def VTree.name : VTree → Option String
  | .node n _ => n

/-- The node's logical children. -/
def VTree.children : VTree → List VTree
  | .node _ cs => cs

/-- Number of nodes in a tree. -/
def vsize : VTree → ℕ
  | .node _ cs => 1 + (cs.attach.map (fun x => vsize x.1)).sum
decreasing_by
  have := List.sizeOf_lt_of_mem x.2
  simp only [VTree.node.sizeOf_spec]
  omega

theorem vsize_node (n : Option String) (cs : List VTree) :
    vsize (.node n cs) = 1 + (cs.map vsize).sum := by
  rw [vsize]
  congr 1
  rw [List.attach_map_coe]

/-- Total node count of a queue of trees. -/
def qsize (q : List VTree) : ℕ := (q.map vsize).sum

theorem qsize_cons_children (t : VTree) (rest : List VTree) :
    qsize (rest ++ t.children) < qsize (t :: rest) := by
  cases t with
  | node n cs =>
    simp only [qsize, VTree.children, List.map_append, List.sum_append,
      List.map_cons, List.sum_cons, vsize_node]
    omega

/-- The breadth-first fallback loop of `forms._find`: pop the front of the
queue, return it if its `Name` matches, else enqueue its children. -/
def bfs (queue : List VTree) (nm : String) : Option VTree :=
  match queue with
  | [] => none
  | t :: rest =>
    if t.name = some nm then some t
    else bfs (rest ++ t.children) nm
termination_by qsize queue
decreasing_by
  exact qsize_cons_children t rest

/-- The visit order of `_find`'s breadth-first loop starting from the
given queue: the node popped at each iteration, in sequence (each popped
node's children are appended behind the remaining queue). `bfs` returns
exactly the first node of this order whose `Name` matches. -/
def bfsOrder (queue : List VTree) : List VTree :=
  match queue with
  | [] => []
  | t :: rest => t :: bfsOrder (rest ++ t.children)
termination_by qsize queue
decreasing_by
  exact qsize_cons_children t rest

/-- All nodes of the trees in a queue (preorder; used only to state which
nodes exist, not to fix a visit order). -/
def allNodes (q : List VTree) : List VTree :=
  match q with
  | [] => []
  | t :: rest => t :: (allNodes t.children ++ allNodes rest)
termination_by qsize q
decreasing_by
  · cases t with
    | node n cs =>
      simp only [qsize, VTree.children, List.map_cons, List.sum_cons, vsize_node]
      omega
  · cases t with
    | node n cs =>
      simp only [qsize, List.map_cons, List.sum_cons, vsize_node]
      omega

/-- Model of `forms._find(scope, name)`: the guarded direct `FindName` lookup
(`direct`; `none` covers a missing attribute, a raised exception, or a
`None` result) wins when it yields an element, else the breadth-first
walk from the scope root. -/
def find_part (direct : Option VTree) (root : VTree) (nm : String) : Option VTree :=
  match direct with
  | some el => some el
  | none => bfs [root] nm

/-! ## `forms.alert` rendering model

`forms.alert` loads `Alert.xaml`, resolves the named parts, wires a
handler for each part that resolved, and shows the window; on a load
failure it falls back to `MessageBox.Show`. Only the wiring/result
structure is modelled. -/

/-- Observable outcome of one `forms.alert` call. -/
structure AlertRender : Type where
  shown : Bool
  usedMessageBox : Bool
  okWired : Bool
  cancelWired : Bool
  messageSet : Bool
  ret : Option Bool
deriving DecidableEq, Repr

/-- Model of `forms.alert`: `load` is the guarded `_load_win` outcome, the lookup
function is `_find` over the loaded scope. The function always returns
Python `None` (`ret = none`). -/
def forms_alert (load : Except PyErr (String → Option VTree)) : AlertRender :=
  match load with
  | .error _ =>
    { shown := true, usedMessageBox := true, okWired := false,
      cancelWired := false, messageSet := false, ret := none }
  | .ok lookup =>
    { shown := true
      usedMessageBox := false
      okWired := (lookup "button_ok").isSome
      cancelWired := (lookup "button_cancel").isSome
      messageSet := (lookup "text_message").isSome
      ret := none }

/-! ## Big-button chooser (`forms.big_buttons`) -/

/-- The single user action that closes the `ButtonBox` dialog. -/
inductive BBAction : Type
| clickItem (i : ℕ)
| clickCancel
| clickOk
| closeWindow
deriving DecidableEq, Repr

/-- Model of `forms.big_buttons(title, items, message, cancel)`: one button per
label (wired only when the `panel_buttons` host resolved); the `result`
dict starts at `None` and the function returns `result["choice"]`.
`cancelParam` is the `cancel` argument; `cancelFound` / `okFound` are the
part-resolution outcomes for `button_cancel` / `button_ok`. -/
def big_buttons (items : List (List Char))
    (hostFound cancelParam cancelFound okFound : Bool)
    (act : BBAction) : Option (List Char) :=
  match act with
  | .clickItem i =>
    if hostFound ∧ i < items.length then items.get? i else none
  | .clickCancel => none
  | .clickOk =>
    if okFound ∧ items ≠ [] then items.head? else none
  | .closeWindow => none

/-! ## List selection

`forms.SelectFromList.show` stores the *display string* of each row in
the list box and maps a chosen string back through
`labels.index(string)` over `str(x)`; `ada_brandforms_v6.select_from_list`
stashes the original object in each row's `Tag`. -/

/-- An input object: `oid` is its identity, `pyStr` its `str()` form,
`attr` the optional attribute named by `name_attr`. -/
structure Item : Type where
  oid : ℕ
  pyStr : List Char
  attr : Option (List Char)
deriving DecidableEq, Repr

/-- The `_label` helper of `forms.SelectFromList.show`. -/
def itemLabel (nameAttr : Bool) (x : Item) : List Char :=
  if nameAttr then x.attr.getD x.pyStr else x.pyStr

/-- Normalized result of a list-selection dialog: Python `None`, a single
object, or a list of objects. -/
inductive SelectResult : Type
| null
| one (it : Item)
| many (its : List Item)
deriving DecidableEq, Repr

/-- Model of `forms.SelectFromList.show`. `cancelled` is a falsy `ShowDialog`
result (Cancel button or window close); `selRows` are the indices of the
rows selected in the list box when it closed (at most one in
single-select mode). -/
def SelectFromList_show (items : List Item) (nameAttr multiselect : Bool)
    (cancelled : Bool) (selRows : List ℕ) : SelectResult :=
  let displayed := items.map (itemLabel nameAttr)
  if cancelled then .null
  else if multiselect then
    -- selm = [lb.Items[i] for i in range(count) if SelectedItems.Contains(lb.Items[i])]
    let selLabels := selRows.filterMap (fun i => displayed.get? i)
    let selm := displayed.filter (fun s => s ∈ selLabels)
    let labels : List (List Char) := items.map (fun x => x.pyStr)
    SelectResult.many (selm.filterMap (fun s =>
      if s ∈ labels then items.get? (labels.indexOf s) else none))
  else
    match selRows.head?.bind (fun i => displayed.get? i) with
    | none => .null
    | some lbl =>
      let labels : List (List Char) := items.map (fun x => x.pyStr)
      if lbl ∈ labels then
        match items.get? (labels.indexOf lbl) with
        | some it => .one it
        | none => .null
      else .null

/-- How the v6 list dialog closed: OK with the selected row indices, or
cancelled (Cancel button, ✕, or Escape). -/
inductive V6Outcome : Type
| ok (selRows : List ℕ)
| cancel
deriving DecidableEq, Repr

/-- Result phase of `ada_brandforms_v6.select_from_list`: each visible
row carries the original object in its `Tag`. -/
def v6_select_from_list (rows : List Item) (multiselect : Bool)
    (outcome : V6Outcome) : SelectResult :=
  match outcome with
  | .ok sel =>
    if multiselect then .many (sel.filterMap (fun i => rows.get? i))
    else
      match sel.head?.bind (fun i => rows.get? i) with
      | some it => .one it
      | none => .null
  | .cancel => if multiselect then .many [] else .null

/-! ## Spec-side token sets for the boolean-parsing claim -/

/-- The truthy token set named by the spec (§4.5): {"yes","true","1","y","t"}. -/
def specBoolTrueTokens : List (List Char) :=
  ["yes".toList, "true".toList, "1".toList, "y".toList, "t".toList]

/-- The falsy token set named by the spec (§4.5): {"no","false","0","n","f"}. -/
def specBoolFalseTokens : List (List Char) :=
  ["no".toList, "false".toList, "0".toList, "n".toList, "f".toList]

/-- Follows the spec's words for float parsing (§4.5), for comparison
with `parse_value`: "first whitespace-delimited token, comma decimal
separator normalized to dot, parsed as floating point; unparsable input →
keep". (`pyFloat [] = none`, so an all-whitespace input is "unparsable".) -/
def float_parse_spec (s : List Char) : ParseOut :=
  match pyFloat (firstTok (replaceCommaDot s)) with
  | some q => .val (.f q)
  | none => .keep

/-! # Theorems -/

/-! ### Resource-dictionary lemmas -/

theorem indexOf_eq_of_first {α : Type} [BEq α] [LawfulBEq α] (l : List α) (a : α)
    (i : ℕ) (hi : i < l.length) (ha : l.get ⟨i, hi⟩ = a)
    (hf : ∀ k (hk : k < i), l.get ⟨k, Nat.lt_trans hk hi⟩ ≠ a) :
    l.indexOf a = i := by
  induction l generalizing i with
  | nil => exact absurd hi (by simp)
  | cons x xs ih =>
    cases i with
    | zero =>
      simp only [List.get] at ha
      simp [List.indexOf_cons, ha]
    | succ i' =>
      have hx : x ≠ a := by
        have := hf 0 (Nat.succ_pos i')
        simpa using this
      have hi' : i' < xs.length := by simpa using hi
      have ha' : xs.get ⟨i', hi'⟩ = a := by simpa using ha
      have hf' : ∀ k (hk : k < i'), xs.get ⟨k, Nat.lt_trans hk hi'⟩ ≠ a := by
        intro k hk
        have := hf (k + 1) (Nat.succ_lt_succ hk)
        simpa using this
      have hind := ih i' hi' ha' hf'
      have hba : (x == a) = false := by
        simp only [beq_eq_false_iff_ne, ne_eq]
        exact hx
      simp [List.indexOf_cons, hba, hind]

/-- C10: `forms.SelectFromList.show` maps a selection back to the input
objects by display string and first index: with `i` the earliest index
carrying the selected display string and `j > i` a later row with the
same string, single-select of row `j` returns the object at index `i`,
and multi-select of row `j` returns a non-empty list every element of
which is the object at index `i`. -/
theorem sfl_show_maps_to_first_index (items : List Item) (i j : ℕ)
    (hij : i < j) (hj : j < items.length)
    (heq : (items.get ⟨i, Nat.lt_trans hij hj⟩).pyStr =
      (items.get ⟨j, hj⟩).pyStr)
    (hfirst : ∀ k (hk : k < i),
      (items.get ⟨k, Nat.lt_trans hk (Nat.lt_trans hij hj)⟩).pyStr ≠
        (items.get ⟨i, Nat.lt_trans hij hj⟩).pyStr) :
    SelectFromList_show items false false false [j] =
      .one (items.get ⟨i, Nat.lt_trans hij hj⟩) ∧
    (∃ l, SelectFromList_show items false true false [j] = .many l ∧
      l ≠ [] ∧ ∀ x ∈ l, x = items.get ⟨i, Nat.lt_trans hij hj⟩) := by
  have hi : i < items.length := Nat.lt_trans hij hj
  set L := (items.get ⟨j, hj⟩).pyStr with hL
  have hdisp : items.map (itemLabel false) = items.map (fun x => x.pyStr) := by
    apply List.map_congr_left
    intro x _
    simp [itemLabel]
  have hlabLen : (items.map (fun x => x.pyStr)).length = items.length := by simp
  have hiL : i < (items.map (fun x => x.pyStr)).length := by omega
  have hgetI : (items.map (fun x => x.pyStr)).get ⟨i, hiL⟩ = L := by
    simp [List.get_map]
    exact heq
  have hIdx : (items.map (fun x => x.pyStr)).indexOf L = i := by
    apply indexOf_eq_of_first _ _ _ hiL hgetI
    intro k hk
    simp only [List.get_map]
    exact fun hc => hfirst k hk (by rw [← heq] at hc; exact hc)
  have hjL : j < (items.map (fun x => x.pyStr)).length := by omega
  have hgetJ : (items.map (fun x => x.pyStr)).get? j = some L := by
    rw [List.get?_eq_get hjL]
    congr 1
    rw [hL]
    simp [List.get_map]
  have hLmem : L ∈ items.map (fun x => x.pyStr) := by
    rw [← hgetI]
    exact List.get_mem _ _ _
  have hItemsI : items.get? i = some (items.get ⟨i, hi⟩) :=
    List.get?_eq_get hi
  constructor
  · have hsingle : SelectFromList_show items false false false [j] =
        (match (items.map (itemLabel false)).get? j with
         | none => SelectResult.null
         | some lbl =>
           if lbl ∈ items.map (fun x => x.pyStr) then
             match items.get? ((items.map (fun x => x.pyStr)).indexOf lbl) with
             | some it => SelectResult.one it
             | none => SelectResult.null
           else SelectResult.null) := rfl
    rw [hsingle, hdisp, hgetJ]
    simp only [hLmem, if_pos, hIdx, hItemsI]
  · have hform : SelectFromList_show items false true false [j] =
        SelectResult.many (((items.map (itemLabel false)).filter
          (fun s => s ∈ ([j].filterMap
            (fun k => (items.map (itemLabel false)).get? k)))).filterMap
              (fun s => if s ∈ items.map (fun x => x.pyStr) then
                items.get? ((items.map (fun x => x.pyStr)).indexOf s)
              else none)) := rfl
    rw [hdisp] at hform
    have hsel : [j].filterMap
        (fun k => (items.map (fun x => x.pyStr)).get? k) = [L] := by
      simp only [List.filterMap_cons, List.filterMap_nil, hgetJ]
    rw [hsel] at hform
    refine ⟨_, hform, ?_, ?_⟩
    · intro hnil
      have hmem : L ∈ (items.map fun x => x.pyStr).filter
          (fun s => s ∈ ([L] : List (List Char))) := by
        rw [List.mem_filter]
        exact ⟨hLmem, by simp⟩
      have hin : (items.get ⟨i, hi⟩) ∈ (((items.map fun x => x.pyStr).filter
          (fun s => s ∈ ([L] : List (List Char)))).filterMap
            (fun s => if s ∈ items.map (fun x => x.pyStr) then
              items.get? ((items.map fun x => x.pyStr).indexOf s) else none)) := by
        rw [List.mem_filterMap]
        exact ⟨L, hmem, by simp [hLmem, hIdx, hItemsI]⟩
      rw [hnil] at hin
      exact absurd hin (List.not_mem_nil _)
    · intro x hx
      rw [List.mem_filterMap] at hx
      obtain ⟨s, hs, hsx⟩ := hx
      rw [List.mem_filter] at hs
      obtain ⟨_, hsel2⟩ := hs
      have hsl : s = L := by simpa using hsel2
      rw [hsl] at hsx
      simp only [hLmem, if_pos, hIdx, hItemsI] at hsx
      exact (Option.some.injEq _ _ ▸ hsx).symm

/-- Witness for C10: two distinct objects share `str()` form "Beam";
selecting the later one (row 1) returns the earlier object in
single-select mode, and multi-select returns only the earlier object. -/
theorem sfl_show_maps_to_first_index_witness :
    SelectFromList_show
      [⟨0, "Beam".toList, none⟩, ⟨1, "Beam".toList, none⟩] false false false [1] =
      .one ⟨0, "Beam".toList, none⟩ ∧
    (∃ l, SelectFromList_show
      [⟨0, "Beam".toList, none⟩, ⟨1, "Beam".toList, none⟩] false true false [1] =
        .many l ∧ l ≠ [] ∧ ∀ x ∈ l, x = (⟨0, "Beam".toList, none⟩ : Item)) := by
  have h := sfl_show_maps_to_first_index
    [⟨0, "Beam".toList, none⟩, ⟨1, "Beam".toList, none⟩] 0 1
    (by decide) (by decide) (by decide)
    (fun k hk => absurd hk (by omega))
  exact h

/-! ### `pySplit` characterization -/

theorem pySplitAux_token : ∀ (u acc : List Char), acc ≠ [] →
    pySplitAux u acc =
      (acc.reverse ++ u.takeWhile (fun d => !pyIsSpace d)) ::
        pySplitAux (u.dropWhile (fun d => !pyIsSpace d)) [] := by
  intro u
  induction u with
  | nil =>
    intro acc hacc
    cases acc with
    | nil => exact absurd rfl hacc
    | cons a as => simp [pySplitAux]
  | cons c cs ih =>
    intro acc hacc
    by_cases hc : pyIsSpace c
    · cases acc with
      | nil => exact absurd rfl hacc
      | cons a as =>
        simp only [pySplitAux, hc, if_true]
        rw [List.takeWhile_cons, List.dropWhile_cons]
        simp only [hc]
        simp [pySplitAux, hc]
    · simp only [pySplitAux, hc, if_false]
      rw [ih (c :: acc) (by simp)]
      rw [List.takeWhile_cons, List.dropWhile_cons]
      simp [hc]

theorem pySplit_cons_nonspace (c : Char) (cs : List Char)
    (hc : pyIsSpace c = false) :
    pySplit (c :: cs) =
      ((c :: cs).takeWhile (fun d => !pyIsSpace d)) ::
        pySplit ((c :: cs).dropWhile (fun d => !pyIsSpace d)) := by
  unfold pySplit
  have h1 : pySplitAux (c :: cs) [] = pySplitAux cs [c] := by
    simp [pySplitAux, hc]
  rw [h1, pySplitAux_token cs [c] (by simp)]
  rw [List.takeWhile_cons, List.dropWhile_cons]
  simp [hc]

/-! ### Strip / first-token lemmas -/

theorem pyStrip_eq_rstrip (s : List Char) :
    pyStrip s = pyRStrip (s.dropWhile pyIsSpace) := rfl

theorem pyRStrip_cons (c : Char) (a : List Char) :
    pyRStrip (c :: a) =
      if pyRStrip a = [] then (if pyIsSpace c then [] else [c])
      else c :: pyRStrip a := by
  unfold pyRStrip
  rw [List.reverse_cons, List.dropWhile_append]
  by_cases h : (a.reverse.dropWhile pyIsSpace).isEmpty
  · rw [if_pos h]
    rw [List.isEmpty_iff] at h
    rw [if_pos (by rw [h]; rfl)]
    by_cases hc : pyIsSpace c
    · simp [List.dropWhile_cons, hc]
    · simp [List.dropWhile_cons, hc]
  · rw [if_neg h]
    rw [List.isEmpty_iff] at h
    rw [if_neg (by intro hc2; exact h (by simpa using congrArg List.reverse hc2))]
    rw [List.reverse_append]
    rfl

theorem takeWhile_pyRStrip (a : List Char) :
    (pyRStrip a).takeWhile (fun d => !pyIsSpace d) =
      a.takeWhile (fun d => !pyIsSpace d) := by
  induction a with
  | nil => rfl
  | cons c a ih =>
    rw [pyRStrip_cons]
    by_cases h : pyRStrip a = []
    · rw [if_pos h]
      rw [h] at ih
      by_cases hc : pyIsSpace c
      · rw [if_pos hc]
        rw [List.takeWhile_cons]
        simp [hc]
      · rw [if_neg hc]
        rw [List.takeWhile_cons, List.takeWhile_cons]
        simp [hc, ← ih]
    · rw [if_neg h]
      rw [List.takeWhile_cons, List.takeWhile_cons]
      by_cases hc : pyIsSpace c <;> simp [hc, ih]

theorem head_pyRStrip (c : Char) (a : List Char) (h : pyRStrip (c :: a) ≠ []) :
    ∃ t, pyRStrip (c :: a) = c :: t := by
  rw [pyRStrip_cons] at h ⊢
  by_cases h1 : pyRStrip a = []
  · rw [if_pos h1] at h ⊢
    by_cases hc : pyIsSpace c
    · rw [if_pos hc] at h
      exact absurd rfl h
    · rw [if_neg hc]
      exact ⟨[], rfl⟩
  · rw [if_neg h1]
    exact ⟨pyRStrip a, rfl⟩

theorem pyStrip_head (s : List Char) (h : pyStrip s ≠ []) :
    ∃ c t, pyStrip s = c :: t ∧ pyIsSpace c = false := by
  rw [pyStrip_eq_rstrip] at h ⊢
  rcases hd : s.dropWhile pyIsSpace with _ | ⟨c, cs⟩
  · rw [hd] at h
    exact absurd rfl h
  · rw [hd] at h
    obtain ⟨t, ht⟩ := head_pyRStrip c cs h
    refine ⟨c, t, ht, ?_⟩
    have hh := List.head_dropWhile_not pyIsSpace s
    rw [hd] at hh
    simpa using hh (by simp)

theorem firstTok_pyStrip (s : List Char) : firstTok (pyStrip s) = firstTok s := by
  by_cases h : pyStrip s = []
  · rw [h]
    have hdw : s.dropWhile pyIsSpace = [] := by
      rcases hd : s.dropWhile pyIsSpace with _ | ⟨c, cs⟩
      · rfl
      · exfalso
        have hc : pyIsSpace c = false := by
          have hh := List.head_dropWhile_not pyIsSpace s
          rw [hd] at hh
          simpa using hh (by simp)
        have h2 : pyStrip s ≠ [] := by
          rw [pyStrip_eq_rstrip, hd, pyRStrip_cons]
          by_cases h1 : pyRStrip cs = [] <;> simp [h1, hc]
        exact h2 h
    unfold firstTok
    rw [hdw]
    rfl
  · obtain ⟨c, t, hct, hc⟩ := pyStrip_head s h
    unfold firstTok
    rw [hct, List.dropWhile_cons]
    rw [if_neg (by simp [hc])]
    rw [← hct, pyStrip_eq_rstrip]
    exact takeWhile_pyRStrip _

theorem space_replaceComma (c : Char) :
    pyIsSpace (if c = ',' then '.' else c) = pyIsSpace c := by
  by_cases h : c = ','
  · rw [if_pos h, h]
    decide
  · rw [if_neg h]

theorem space_comp :
    (pyIsSpace ∘ fun c => if c = ',' then '.' else c) = pyIsSpace := by
  funext c
  exact space_replaceComma c

theorem dropWhile_replaceComma (l : List Char) :
    (replaceCommaDot l).dropWhile pyIsSpace =
      replaceCommaDot (l.dropWhile pyIsSpace) := by
  unfold replaceCommaDot
  rw [List.dropWhile_map, space_comp]

theorem replaceComma_pyRStrip (a : List Char) :
    replaceCommaDot (pyRStrip a) = pyRStrip (replaceCommaDot a) := by
  unfold pyRStrip replaceCommaDot
  rw [← List.map_reverse, List.dropWhile_map, space_comp, ← List.map_reverse]

theorem replaceComma_pyStrip (s : List Char) :
    replaceCommaDot (pyStrip s) = pyStrip (replaceCommaDot s) := by
  rw [pyStrip_eq_rstrip, pyStrip_eq_rstrip, dropWhile_replaceComma,
    replaceComma_pyRStrip]

/-- C6: float parsing equals the spec's description — comma decimal
separators normalized to dots, the first whitespace-delimited token
parsed as a float, "keep" on unparsable input — for every input string;
and the "15,0 ft" scenario yields 15.0 with ChangeSet {"Width": 15.0}. -/
theorem parse_float_first_token :
    (∀ s : List Char, parse_value .float (some s) = float_parse_spec s) ∧
    parse_value .float (some "15,0 ft".toList) = .val (.f 15) ∧
    bulk_edit [⟨"Width", .float, some (.f (25/2)), "ft".toList⟩]
      [.typed "15,0 ft".toList] true = some [("Width", TVal.f 15)] := by
  refine ⟨?_, by with_unfolding_all rfl, by with_unfolding_all rfl⟩
  intro s
  have hlhs : parse_value .float (some s) =
      (if pyStrip s = [] then ParseOut.keep
       else
         match pySplit (replaceCommaDot (pyStrip s)) with
         | [] => ParseOut.keep
         | t :: _ =>
           match pyFloat t with
           | some q => ParseOut.val (.f q)
           | none => ParseOut.keep) := rfl
  rw [hlhs]
  by_cases h : pyStrip s = []
  · rw [if_pos h]
    have hft : firstTok (replaceCommaDot s) = [] := by
      rw [← firstTok_pyStrip (replaceCommaDot s), ← replaceComma_pyStrip, h]
      rfl
    unfold float_parse_spec
    rw [hft]
    rfl
  · rw [if_neg h]
    obtain ⟨c, t, hct, hc⟩ := pyStrip_head s h
    have hgct : replaceCommaDot (pyStrip s) =
        (if c = ',' then '.' else c) :: replaceCommaDot t := by
      rw [hct]
      rfl
    have hcsp : pyIsSpace (if c = ',' then '.' else c) = false := by
      rw [space_replaceComma]
      exact hc
    have hsplit : pySplit (replaceCommaDot (pyStrip s)) =
        (((if c = ',' then '.' else c) :: replaceCommaDot t).takeWhile
          (fun d => !pyIsSpace d)) ::
          pySplit (((if c = ',' then '.' else c) :: replaceCommaDot t).dropWhile
            (fun d => !pyIsSpace d)) := by
      rw [hgct]
      exact pySplit_cons_nonspace _ _ hcsp
    rw [hsplit]
    have hdid : (replaceCommaDot (pyStrip s)).dropWhile pyIsSpace =
        replaceCommaDot (pyStrip s) := by
      rw [hgct, List.dropWhile_cons]
      rw [if_neg (by simp [hcsp])]
    have htok : (((if c = ',' then '.' else c) :: replaceCommaDot t).takeWhile
        (fun d => !pyIsSpace d)) = firstTok (replaceCommaDot s) := by
      rw [← hgct]
      calc (replaceCommaDot (pyStrip s)).takeWhile (fun d => !pyIsSpace d)
          = ((replaceCommaDot (pyStrip s)).dropWhile pyIsSpace).takeWhile
              (fun d => !pyIsSpace d) := by rw [hdid]
        _ = firstTok (replaceCommaDot (pyStrip s)) := rfl
        _ = firstTok (pyStrip (replaceCommaDot s)) := by
              rw [replaceComma_pyStrip]
        _ = firstTok (replaceCommaDot s) := firstTok_pyStrip _
    rw [htok]
    unfold float_parse_spec
    rfl

/-! ### Bulk-editor collection lemmas -/

theorem rowName_mkRow (p : EditableParam) (e : EditState) :
    rowName (mkRow p e) = p.name := by
  unfold mkRow
  by_cases h : p.ptype = PType.bool <;> simp [h, rowName]

theorem rowChange_name (r : EditorRow) (p : String × TVal)
    (h : rowChange r = some p) : p.1 = rowName r := by
  cases r with
  | boolRow n st =>
    simp only [rowChange] at h
    by_cases hst : st = CheckState.indeterminate
    · simp [hst] at h
    · simp only [hst, if_false] at h
      cases h
      rfl
  | textRow n pt content =>
    simp only [rowChange] at h
    by_cases hraw : pyStrip content = []
    · simp [hraw] at h
    · simp only [hraw, if_false] at h
      rcases hp : parse_value pt (some (pyStrip content)) with _ | v
      · rw [hp] at h; cases h
      · rw [hp] at h; cases h; rfl

theorem zipRows_names_sublist : ∀ (params : List EditableParam)
    (edits : List EditState),
    ((List.zipWith mkRow params edits).map rowName).Sublist
      (params.map EditableParam.name) := by
  intro params
  induction params with
  | nil => intro edits; simp
  | cons p ps ih =>
    intro edits
    cases edits with
    | nil => simp
    | cons e es =>
      simp only [List.zipWith_cons_cons, List.map_cons, rowName_mkRow]
      exact (ih es).cons₂ p.name

theorem dictInsert_not_mem (d : List (String × TVal)) (k : String) (v : TVal)
    (h : k ∉ d.map Prod.fst) : dictInsert d k v = d ++ [(k, v)] := by
  unfold dictInsert
  rw [if_neg]
  intro hc
  rw [List.any_eq_true] at hc
  obtain ⟨q, hq, hqk⟩ := hc
  rw [decide_eq_true_eq] at hqk
  exact h (hqk ▸ List.mem_map_of_mem Prod.fst hq)

theorem collect_go (rows : List EditorRow) :
    ∀ (acc : List (String × TVal)),
    (∀ r ∈ rows, rowName r ∉ acc.map Prod.fst) →
    ((rows.map rowName).Nodup) →
    rows.foldl (fun changes r =>
      match rowChange r with
      | none => changes
      | some (k, v) => dictInsert changes k v) acc =
      acc ++ rows.filterMap rowChange := by
  induction rows with
  | nil => intro acc _ _; simp
  | cons r rest ih =>
    intro acc hdis hnd
    rcases h : rowChange r with _ | kv
    · simp only [List.foldl_cons, h]
      rw [List.filterMap_cons_none h]
      exact ih acc (fun r' hr' => hdis r' (List.mem_cons_of_mem r hr'))
        (by simpa using hnd.of_cons)
    · obtain ⟨k, v⟩ := kv
      have hk : k = rowName r := rowChange_name r (k, v) h
      have hnotin : k ∉ acc.map Prod.fst := by
        rw [hk]
        exact hdis r (List.mem_cons_self r rest)
      simp only [List.foldl_cons, h]
      rw [dictInsert_not_mem acc k v hnotin]
      rw [List.filterMap_cons_some h]
      have hnd' : ((rest.map rowName)).Nodup := by simpa using hnd.of_cons
      have hknotrest : ∀ r' ∈ rest, rowName r' ≠ k := by
        intro r' hr' hc
        rw [hk] at hc
        have : rowName r ∈ rest.map rowName :=
          hc ▸ List.mem_map_of_mem rowName hr'
        rw [List.map_cons] at hnd
        exact (List.nodup_cons.mp hnd).1 this
      have hdis' : ∀ r' ∈ rest, rowName r' ∉ (acc ++ [(k, v)]).map Prod.fst := by
        intro r' hr'
        simp only [List.map_append, List.mem_append]
        rintro (hin | hin)
        · exact hdis r' (List.mem_cons_of_mem r hr') hin
        · simp at hin
          exact hknotrest r' hr' hin
      rw [ih (acc ++ [(k, v)]) hdis' hnd']
      simp

/-- C4: when the bulk editor is closed with OK (non-empty parameter list,
distinct names), the returned ChangeSet is exactly the changed rows in
order — a bool row contributes iff its tri-state checkbox is not
indeterminate, a text row iff its stripped text is non-empty and parses —
and unedited ("keep") rows are omitted; in particular if every row is in
the keep state the ChangeSet is empty. -/
theorem bulk_edit_changed_only (params : List EditableParam)
    (edits : List EditState) (hne : params ≠ [])
    (hnodup : (params.map EditableParam.name).Nodup) :
    bulk_edit params edits true =
      some ((List.zipWith mkRow params edits).filterMap rowChange) ∧
    ((∀ r ∈ List.zipWith mkRow params edits, rowChange r = none) →
      bulk_edit params edits true = some []) := by
  have hnd : ((List.zipWith mkRow params edits).map rowName).Nodup :=
    (zipRows_names_sublist params edits).nodup hnodup
  have hcoll : collectChanges (List.zipWith mkRow params edits) =
      (List.zipWith mkRow params edits).filterMap rowChange := by
    have h := collect_go (List.zipWith mkRow params edits) [] (by simp) hnd
    simpa [collectChanges] using h
  have hfirst : bulk_edit params edits true =
      some ((List.zipWith mkRow params edits).filterMap rowChange) := by
    unfold bulk_edit
    rw [if_neg hne]
    simp only [not_true, if_false, hcoll]
  refine ⟨hfirst, ?_⟩
  intro hall
  rw [hfirst, List.filterMap_eq_nil.mpr hall]

/-- Witness for C4: two parameters, the bool left checked and the float
edited to "15"; OK yields exactly those two entries — and with both rows
left in their keep state, OK yields the empty ChangeSet. -/
theorem bulk_edit_changed_only_witness :
    bulk_edit
      [⟨"IsActive", .bool, some (.b false), []⟩,
       ⟨"Width", .float, some (.f (25/2)), "ft".toList⟩]
      [.check .checked, .typed "15".toList] true =
      some [("IsActive", TVal.b true), ("Width", TVal.f 15)] ∧
    bulk_edit
      [⟨"IsActive", .bool, some (.b false), []⟩,
       ⟨"Width", .float, some (.f (25/2)), "ft".toList⟩]
      [.check .indeterminate, .typed []] true = some [] := by
  constructor
  · have h := bulk_edit_changed_only
      [⟨"IsActive", .bool, some (.b false), []⟩,
       ⟨"Width", .float, some (.f (25/2)), "ft".toList⟩]
      [.check .checked, .typed "15".toList] (by decide) (by decide)
    rw [h.1]
    with_unfolding_all rfl
  · have h := bulk_edit_changed_only
      [⟨"IsActive", .bool, some (.b false), []⟩,
       ⟨"Width", .float, some (.f (25/2)), "ft".toList⟩]
      [.check .indeterminate, .typed []] (by decide) (by decide)
    exact h.2 (by decide)

/-! ### Part-resolver lemmas -/

theorem vsize_pos (t : VTree) : 1 ≤ vsize t := by
  cases t with
  | node n cs => rw [vsize_node]; omega

theorem allNodes_append (q1 q2 : List VTree) :
    allNodes (q1 ++ q2) = allNodes q1 ++ allNodes q2 := by
  induction q1 with
  | nil => simp [allNodes]
  | cons t rest ih =>
    simp only [List.cons_append, allNodes, ih, List.append_assoc]

theorem bfs_characterization : ∀ (n : ℕ) (q : List VTree), qsize q ≤ n →
    ∀ nm : String,
    (∀ u, bfs q nm = some u → u.name = some nm ∧ u ∈ allNodes q) ∧
    (bfs q nm = none ↔ ∀ u ∈ allNodes q, u.name ≠ some nm) := by
  intro n
  induction n with
  | zero =>
    intro q hq nm
    cases q with
    | nil => simp [bfs, allNodes]
    | cons t rest =>
      exfalso
      have h1 := vsize_pos t
      simp only [qsize, List.map_cons, List.sum_cons] at hq
      omega
  | succ n ih =>
    intro q hq nm
    cases q with
    | nil => simp [bfs, allNodes]
    | cons t rest =>
      have hbfs : bfs (t :: rest) nm =
          if t.name = some nm then some t else bfs (rest ++ t.children) nm := by
        rw [bfs]
      by_cases ht : t.name = some nm
      · rw [if_pos ht] at hbfs
        constructor
        · intro u hu
          rw [hbfs] at hu
          cases hu
          exact ⟨ht, by simp [allNodes]⟩
        · rw [hbfs]
          simp only [Option.some_ne_none, false_iff, not_forall]
          refine ⟨t, by simp [allNodes], by simpa using ht⟩
      · rw [if_neg ht] at hbfs
        have hsz : qsize (rest ++ t.children) ≤ n := by
          have := qsize_cons_children t rest
          omega
        have hih := ih (rest ++ t.children) hsz nm
        have hmemiff : ∀ u : VTree,
            (u ∈ allNodes (rest ++ t.children) ↔
              u ∈ allNodes t.children ∨ u ∈ allNodes rest) := by
          intro u
          rw [allNodes_append, List.mem_append]
          tauto
        constructor
        · intro u hu
          rw [hbfs] at hu
          obtain ⟨hn, hm⟩ := hih.1 u hu
          refine ⟨hn, ?_⟩
          simp only [allNodes, List.mem_cons, List.mem_append]
          rcases (hmemiff u).mp hm with h | h
          · exact Or.inr (Or.inl h)
          · exact Or.inr (Or.inr h)
        · rw [hbfs]
          rw [hih.2]
          constructor
          · intro hall u hu
            simp only [allNodes, List.mem_cons, List.mem_append] at hu
            rcases hu with rfl | hu | hu
            · exact ht
            · exact hall u ((hmemiff u).mpr (Or.inl hu))
            · exact hall u ((hmemiff u).mpr (Or.inr hu))
          · intro hall u hu
            rcases (hmemiff u).mp hu with h | h
            · exact hall u (by simp only [allNodes, List.mem_cons,
                List.mem_append]; exact Or.inr (Or.inl h))
            · exact hall u (by simp only [allNodes, List.mem_cons,
                List.mem_append]; exact Or.inr (Or.inr h))

theorem find_first_index {α : Type} (p : α → Bool) :
    ∀ (l : List α) (u : α), l.find? p = some u →
      ∃ i, ∃ hi : i < l.length, l.get ⟨i, hi⟩ = u ∧ p u = true ∧
        ∀ k (hk : k < i), p (l.get ⟨k, Nat.lt_trans hk hi⟩) = false := by
  intro l
  induction l with
  | nil =>
    intro u h
    simp at h
  | cons a l ih =>
    intro u h
    by_cases hp : p a = true
    · rw [List.find?_cons_of_pos _ hp] at h
      cases h
      exact ⟨0, by simp, rfl, hp, fun k hk => absurd hk (Nat.not_lt_zero k)⟩
    · rw [List.find?_cons_of_neg _ hp] at h
      obtain ⟨i, hi, hget, hpu, hfirst⟩ := ih u h
      refine ⟨i + 1, by simpa using Nat.succ_lt_succ hi, by simpa using hget,
        hpu, ?_⟩
      intro k hk
      cases k with
      | zero =>
        simp only [List.get]
        cases hpa : p a with
        | true => exact absurd hpa hp
        | false => rfl
      | succ k2 =>
        have hk2 := hfirst k2 (Nat.lt_of_succ_lt_succ hk)
        simpa using hk2

theorem bfs_eq_find_bfsOrder : ∀ (n : ℕ) (q : List VTree), qsize q ≤ n →
    ∀ nm : String,
    bfs q nm = (bfsOrder q).find? (fun t => t.name = some nm) := by
  intro n
  induction n with
  | zero =>
    intro q hq nm
    cases q with
    | nil => simp [bfs, bfsOrder]
    | cons t rest =>
      exfalso
      have h1 := vsize_pos t
      simp only [qsize, List.map_cons, List.sum_cons] at hq
      omega
  | succ n ih =>
    intro q hq nm
    cases q with
    | nil => simp [bfs, bfsOrder]
    | cons t rest =>
      have hb : bfs (t :: rest) nm =
          if t.name = some nm then some t
          else bfs (rest ++ t.children) nm := by
        rw [bfs]
      have ho : bfsOrder (t :: rest) = t :: bfsOrder (rest ++ t.children) := by
        rw [bfsOrder]
      rw [hb, ho]
      by_cases ht : t.name = some nm
      · rw [if_pos ht, List.find?_cons_of_pos _ (by simpa using ht)]
      · rw [if_neg ht, List.find?_cons_of_neg _ (by simpa using ht)]
        have hsz : qsize (rest ++ t.children) ≤ n := by
          have := qsize_cons_children t rest
          omega
        exact ih _ hsz nm

/-- C7: part resolution returns the direct name-scope lookup when it
yields an element; otherwise it performs the breadth-first traversal and
returns the FIRST node in breadth-first visit order whose name equals
the requested name (`bfs` equals `find?` over `bfsOrder`, and any hit
sits at an index of the visit order before which no node carries the
name); a `NotFound` (`none`) result occurs exactly when no node of the
tree carries the name; and `forms.alert` with an absent `button_cancel`
part is still shown, with the cancel affordance omitted, returning
Python `None`. -/
theorem find_part_resolution :
    (∀ (el root : VTree) (nm : String),
      find_part (some el) root nm = some el) ∧
    (∀ (root : VTree) (nm : String) (u : VTree),
      find_part none root nm = some u →
        u.name = some nm ∧ u ∈ allNodes [root]) ∧
    (∀ (root : VTree) (nm : String),
      find_part none root nm = none ↔
        ∀ u ∈ allNodes [root], u.name ≠ some nm) ∧
    (∀ (root : VTree) (nm : String),
      find_part none root nm =
        (bfsOrder [root]).find? (fun t => t.name = some nm)) ∧
    (∀ (root : VTree) (nm : String) (u : VTree),
      find_part none root nm = some u →
        ∃ i, ∃ hi : i < (bfsOrder [root]).length,
          (bfsOrder [root]).get ⟨i, hi⟩ = u ∧
          ∀ k (hk : k < i),
            ((bfsOrder [root]).get ⟨k, Nat.lt_trans hk hi⟩).name ≠ some nm) ∧
    (∀ lookup : String → Option VTree, lookup "button_cancel" = none →
      (forms_alert (.ok lookup)).shown = true ∧
      (forms_alert (.ok lookup)).cancelWired = false ∧
      (forms_alert (.ok lookup)).usedMessageBox = false ∧
      (forms_alert (.ok lookup)).ret = none) := by
  refine ⟨fun el root nm => rfl, ?_, ?_, ?_, ?_, ?_⟩
  · intro root nm u hu
    exact (bfs_characterization (qsize [root]) [root] le_rfl nm).1 u hu
  · intro root nm
    exact (bfs_characterization (qsize [root]) [root] le_rfl nm).2
  · intro root nm
    exact bfs_eq_find_bfsOrder (qsize [root]) [root] le_rfl nm
  · intro root nm u hu
    have hf : (bfsOrder [root]).find? (fun t => t.name = some nm) = some u := by
      rw [← bfs_eq_find_bfsOrder (qsize [root]) [root] le_rfl nm]
      exact hu
    obtain ⟨i, hi, hget, _, hfirst⟩ := find_first_index _ _ _ hf
    refine ⟨i, hi, hget, ?_⟩
    intro k hk
    have hk2 := hfirst k hk
    simpa using hk2
  · intro lookup hlk
    refine ⟨rfl, ?_, rfl, rfl⟩
    simp [forms_alert, hlk]

/-- Witness for C7. On an Alert template containing `text_message` and
`button_ok` but no `button_cancel`: the direct lookup wins when present,
the breadth-first fallback finds `button_ok`, no node is named
`button_cancel`, and the alert still renders without a cancel
affordance. On a second template with TWO nodes named `"dup"` — a deep
one under `button_ok` and a shallow sibling — resolution returns the
shallow sibling (the first match in breadth-first order, where a
depth-first search would reach the deep one first), at a visit-order
index before which no node is named `"dup"`. -/
theorem find_part_resolution_witness :
    find_part (some (VTree.node (some "button_ok") []))
      (VTree.node none [VTree.node (some "text_message") [],
        VTree.node (some "button_ok") []]) "button_ok" =
      some (VTree.node (some "button_ok") []) ∧
    ((VTree.node (some "button_ok") []).name = some "button_ok" ∧
      VTree.node (some "button_ok") [] ∈
        allNodes [VTree.node none [VTree.node (some "text_message") [],
          VTree.node (some "button_ok") []]]) ∧
    (∀ u ∈ allNodes [VTree.node none [VTree.node (some "text_message") [],
        VTree.node (some "button_ok") []]],
      u.name ≠ some "button_cancel") ∧
    ((forms_alert (.ok (fun nm => find_part none
        (VTree.node none [VTree.node (some "text_message") [],
          VTree.node (some "button_ok") []]) nm))).shown = true ∧
      (forms_alert (.ok (fun nm => find_part none
        (VTree.node none [VTree.node (some "text_message") [],
          VTree.node (some "button_ok") []]) nm))).cancelWired = false ∧
      (forms_alert (.ok (fun nm => find_part none
        (VTree.node none [VTree.node (some "text_message") [],
          VTree.node (some "button_ok") []]) nm))).usedMessageBox = false ∧
      (forms_alert (.ok (fun nm => find_part none
        (VTree.node none [VTree.node (some "text_message") [],
          VTree.node (some "button_ok") []]) nm))).ret = none) ∧
    find_part none
      (VTree.node none
        [VTree.node (some "button_ok")
          [VTree.node (some "dup") [VTree.node none []]],
         VTree.node (some "dup") []]) "dup" =
      some (VTree.node (some "dup") []) ∧
    (VTree.node (some "dup") [] : VTree) ≠
      VTree.node (some "dup") [VTree.node none []] ∧
    find_part none
      (VTree.node none
        [VTree.node (some "button_ok")
          [VTree.node (some "dup") [VTree.node none []]],
         VTree.node (some "dup") []]) "dup" =
      (bfsOrder [VTree.node none
        [VTree.node (some "button_ok")
          [VTree.node (some "dup") [VTree.node none []]],
         VTree.node (some "dup") []]]).find?
        (fun t => t.name = some "dup") ∧
    (∃ i, ∃ hi : i < (bfsOrder [VTree.node none
        [VTree.node (some "button_ok")
          [VTree.node (some "dup") [VTree.node none []]],
         VTree.node (some "dup") []]]).length,
      (bfsOrder [VTree.node none
        [VTree.node (some "button_ok")
          [VTree.node (some "dup") [VTree.node none []]],
         VTree.node (some "dup") []]]).get ⟨i, hi⟩ =
        VTree.node (some "dup") [] ∧
      ∀ k (hk : k < i),
        ((bfsOrder [VTree.node none
          [VTree.node (some "button_ok")
            [VTree.node (some "dup") [VTree.node none []]],
           VTree.node (some "dup") []]]).get
            ⟨k, Nat.lt_trans hk hi⟩).name ≠ some "dup") := by
  have hfound : find_part none
      (VTree.node none [VTree.node (some "text_message") [],
        VTree.node (some "button_ok") []]) "button_ok" =
      some (VTree.node (some "button_ok") []) := by
    simp [find_part, bfs, VTree.name, VTree.children]
  have hnone : find_part none
      (VTree.node none [VTree.node (some "text_message") [],
        VTree.node (some "button_ok") []]) "button_cancel" = none := by
    simp [find_part, bfs, VTree.name, VTree.children]
  have hdup : find_part none
      (VTree.node none
        [VTree.node (some "button_ok")
          [VTree.node (some "dup") [VTree.node none []]],
         VTree.node (some "dup") []]) "dup" =
      some (VTree.node (some "dup") []) := by
    simp [find_part, bfs, VTree.name, VTree.children]
  refine ⟨find_part_resolution.1 _ _ _,
    find_part_resolution.2.1 _ _ _ hfound,
    (find_part_resolution.2.2.1 _ _).mp hnone,
    find_part_resolution.2.2.2.2.2 _ hnone,
    hdup,
    by simp,
    find_part_resolution.2.2.2.1 _ _,
    find_part_resolution.2.2.2.2.1 _ _ _ hdup⟩

/-- C1: every dialog-operation fallback chain catches a failing tier
locally and moves to the next tier in the fixed priority order; the chain
returns (never raises) the first tier that succeeds —
`ada_core_bigbuttons.alert` over its four tiers and
`ada_brand_bulk_editor_shim._load_forms` over its four tiers (with the
guarded `install_ui_shims` call unable to change or fail the result). -/
theorem fallback_chain_first_success (t1 t2 t3 i1 i2 i3 : Except PyErr Unit)
    (shim : FormsTier → Except PyErr Unit) :
    alert_bigbuttons t1 t2 t3 =
      .ok (if pyOk t1 then .ui6 else if pyOk t2 then .pyrevit
           else if pyOk t3 then .taskdialog else .console) ∧
    load_forms i1 i2 i3 shim =
      .ok (if pyOk i1 then .v6 else if pyOk i2 then .bootstrap
           else if pyOk i3 then .pyrevit else .fallback) := by
  constructor
  · cases t1 <;> cases t2 <;> cases t3 <;>
      simp [alert_bigbuttons, pyTry, pyOk, Except.map]
  · cases i1 <;> cases i2 <;> cases i3 <;>
      simp only [load_forms, pyTry, pyOk, Except.map, Except.bind] <;>
      first
      | (cases shim FormsTier.v6 <;> rfl)
      | (cases shim FormsTier.bootstrap <;> rfl)
      | (cases shim FormsTier.pyrevit <;> rfl)
      | (cases shim FormsTier.fallback <;> rfl)

/-- C9: with `SILENT_ALERTS = True` (the shipped default), the
replacement `forms.alert` installed by `install_ui_shims` returns `True`
for every message/decision-flag combination — including ok/cancel and
yes/no/cancel — and shows no UI. -/
theorem silent_alert_always_true (yes no ok cancel : Bool)
    (branded : BrandedMode → Except PyErr (Option Bool)) :
    alert_compat SILENT_ALERTS yes no ok cancel branded =
      { ret := some true, uiShown := false } := by
  simp [alert_compat, SILENT_ALERTS]

/-- C8: in `forms.big_buttons`, clicking the button carrying a label
returns exactly that label, and closing the window via its close control
returns Python `None`. -/
theorem big_buttons_click_returns_label (items : List (List Char))
    (cp cf okf : Bool) (i : ℕ) (h : i < items.length) :
    big_buttons items true cp cf okf (.clickItem i) = some (items.get ⟨i, h⟩) ∧
    big_buttons items true cp cf okf .closeWindow = none := by
  refine ⟨?_, rfl⟩
  simp [big_buttons, h, List.get?_eq_get]

/-- Witness for C8: with labels `["A","B","C"]`, clicking "B" yields "B"
and the close control yields `None`. -/
theorem big_buttons_click_returns_label_witness :
    big_buttons ["A".toList, "B".toList, "C".toList] true true true true
        (.clickItem 1) = some "B".toList ∧
    big_buttons ["A".toList, "B".toList, "C".toList] true true true true
        .closeWindow = none := by
  have h := big_buttons_click_returns_label
    ["A".toList, "B".toList, "C".toList] true true true 1 (by decide)
  exact ⟨h.1, h.2⟩

/-- C5 counterexample: in `forms.SelectFromList.show`, cancelling in
multi-select mode returns Python `None`, not an empty sequence. -/
theorem sfl_multiselect_cancel_counterexample :
    SelectFromList_show [⟨0, "Alpha".toList, none⟩] false true true [] =
      SelectResult.null ∧
    SelectResult.null ≠ SelectResult.many [] := by
  exact ⟨rfl, by decide⟩

/-- C5 (amended): in `ada_brandforms_v6.select_from_list`, cancelling in
multi-select mode returns an empty sequence and cancelling in
single-select mode returns null; in `forms.SelectFromList.show`, any
cancel path returns null in both modes. -/
theorem select_list_cancel_paths (rows items : List Item)
    (nameAttr m : Bool) (selRows : List ℕ) :
    v6_select_from_list rows true .cancel = .many [] ∧
    v6_select_from_list rows false .cancel = .null ∧
    SelectFromList_show items nameAttr m true selRows = .null := by
  refine ⟨rfl, rfl, ?_⟩
  simp [SelectFromList_show]

/-- C3 counterexample: `"x"` is in neither token set named by the spec,
yet both `_parse_value` implementations map it to `False`, not "keep". -/
theorem parse_bool_x_counterexample :
    ['x'] ∉ specBoolTrueTokens ∧ ['x'] ∉ specBoolFalseTokens ∧
    parse_value .bool (some ['x']) = .val (.b false) ∧
    parse_value_shim .bool (some ['x']) = .val (.b false) ∧
    ParseOut.val (.b false) ≠ ParseOut.keep := by
  refine ⟨by decide, by decide, ?_, ?_, by decide⟩ <;> rfl

/-- C3 (amended): boolean parsing is total and never raises; after
whitespace stripping, a string whose lowercase form is in the extended
truthy set {"yes","true","1","y","t","✓","tick","check"} maps to true,
one in the extended falsy set {"no","false","0","n","f","✗","x","cross"}
maps to false, and every other string maps to the "keep" sentinel; the
UI and shim implementations agree. -/
theorem parse_bool_total (s : List Char) :
    parse_value .bool (some s) =
      (if pyLower (pyStrip s) ∈ uiTrueTokens then .val (.b true)
       else if pyLower (pyStrip s) ∈ uiFalseTokens then .val (.b false)
       else .keep) ∧
    parse_value_shim .bool (some s) = parse_value .bool (some s) := by
  constructor
  · by_cases h : pyStrip s = []
    · rw [parse_value, if_pos h]
      rw [h]
      have h1 : pyLower ([] : List Char) ∉ uiTrueTokens := by decide
      have h2 : pyLower ([] : List Char) ∉ uiFalseTokens := by decide
      rw [if_neg h1, if_neg h2]
    · rw [parse_value, if_neg h]
  · rw [parse_value, parse_value_shim]
    by_cases h : pyStrip s = []
    · rw [if_pos h, if_pos h]
    · rw [if_neg h, if_neg h]
      have ht : (pyLower (pyStrip s) ∈ shimTrueTokens) =
          (pyLower (pyStrip s) ∈ uiTrueTokens) := by
        simp [shimTrueTokens, uiTrueTokens]
        tauto
      have hf : (pyLower (pyStrip s) ∈ shimFalseTokens) =
          (pyLower (pyStrip s) ∈ uiFalseTokens) := by
        simp [shimFalseTokens, uiFalseTokens]
        tauto
      by_cases h1 : pyLower (pyStrip s) ∈ uiTrueTokens <;>
        by_cases h2 : pyLower (pyStrip s) ∈ uiFalseTokens <;>
          simp [h1, h2, ht, hf]

end AdaUI




